import Mathlib

/-!
Verification of the silence-trimmer worker (`src/worker/index.ts`, the BullMQ
video-processing worker) against its natural-language specification.

The development shallowly embeds the worker's code:

* the pure segment planner `buildNonSilentSegments` is translated directly,
  with times modelled as rationals (the TypeScript numbers are only compared
  and subtracted, so the arithmetic is exact);
* the effectful job executor `processVideoJob` (and its helper `processVideo`)
  is translated as a state-passing function over an explicit database state,
  with every external effect (R2 download/upload, ffprobe, ffmpeg spawns,
  email sends, `Date.now()`) supplied by an `Oracle` record of outcomes, and
  the file-system and notification activity recorded in an event trace.
-/

namespace SilenceTrimmer

/-- A time interval in seconds.  Mirrors the TypeScript shape
`{start: number; end: number}` (the `end` field is called `stop` here because
`end` is a Lean keyword). -/
structure Interval where
  start : ℚ
  stop : ℚ
deriving DecidableEq, Repr

/-- Total length covered by a list of intervals: `sum(stop - start)`. -/
def sumLen (l : List Interval) : ℚ :=
  (l.map (fun s => s.stop - s.start)).sum

/-- The cursor walk inside `buildNonSilentSegments`: for each silence, emit
`[cursor, silence.start)` when `silence.start > cursor`, then advance the
cursor to `silence.end`.  Returns the emitted segments and the final cursor. -/
def silenceWalk : ℚ → List Interval → List Interval × ℚ
  | c, [] => ([], c)
  | c, s :: rest =>
    let r := silenceWalk s.stop rest
    if s.start > c then (⟨c, s.start⟩ :: r.1, r.2) else r

/-- Direct translation of `buildNonSilentSegments(duration, silences)` from
the worker: if no silences were detected return the single segment
`[0, duration)`; otherwise walk the silences with a cursor starting at `0`
and append a final segment `[cursor, duration)` when the cursor is still
before the end. -/
def buildNonSilentSegments (duration : ℚ) (silences : List Interval) :
    List Interval :=
  if silences.length = 0 then [⟨0, duration⟩]
  else
    let r := silenceWalk 0 silences
    if r.2 < duration then r.1 ++ [⟨r.2, duration⟩] else r.1

/-- Every interval is well formed: `start ≤ stop`. -/
abbrev WellFormed (l : List Interval) : Prop := ∀ s ∈ l, s.start ≤ s.stop

/-- The list is ordered and non-overlapping: each interval ends no later than
the next one starts. -/
abbrev Ordered (l : List Interval) : Prop :=
  List.Chain' (fun a b => a.stop ≤ b.start) l

/-- All intervals lie inside `[0, D]`. -/
abbrev ContainedIn (D : ℚ) (l : List Interval) : Prop :=
  ∀ s ∈ l, 0 ≤ s.start ∧ s.stop ≤ D

/-- The intervals jointly cover every point of `[0, D)`. -/
def Covers (D : ℚ) (l : List Interval) : Prop :=
  ∀ x : ℚ, 0 ≤ x → x < D → ∃ s ∈ l, s.start ≤ x ∧ x < s.stop

/-- The cursor is a lower bound for the head of the remaining silence list. -/
abbrev LB (c : ℚ) : List Interval → Prop
  | [] => True
  | s :: _ => c ≤ s.start

theorem wellFormed_tail {s : Interval} {rest : List Interval}
    (h : WellFormed (s :: rest)) : WellFormed rest :=
  fun t ht => h t (List.mem_cons_of_mem _ ht)

theorem wellFormed_head {s : Interval} {rest : List Interval}
    (h : WellFormed (s :: rest)) : s.start ≤ s.stop :=
  h s (List.mem_cons_self _ _)

theorem ordered_tail {s : Interval} {rest : List Interval}
    (h : Ordered (s :: rest)) : Ordered rest :=
  List.Chain'.tail h

theorem lb_of_ordered {s : Interval} {rest : List Interval}
    (h : Ordered (s :: rest)) : LB s.stop rest := by
  cases rest with
  | nil => trivial
  | cons t rs => exact (List.chain'_cons.mp h).1

/-- In an ordered, well-formed list the head's stop bounds the start of every
later interval. -/
theorem ordered_head_le {s : Interval} {rest : List Interval}
    (hord : Ordered (s :: rest)) (hwf : WellFormed rest) :
    ∀ t ∈ rest, s.stop ≤ t.start := by
  induction rest generalizing s with
  | nil => intro t ht; cases ht
  | cons u rs ih =>
    intro t ht
    have h1 : s.stop ≤ u.start := (List.chain'_cons.mp hord).1
    rcases List.mem_cons.mp ht with rfl | ht'
    · exact h1
    · have h2 := ih (s := u) (List.chain'_cons.mp hord).2 (wellFormed_tail hwf) t ht'
      have h3 : u.start ≤ u.stop := wellFormed_head hwf
      linarith

/-- Master lemma about the cursor walk: under well-formedness, ordering, and
the cursor lower bound, the walk's emitted segments sum to
`(final cursor) - cursor - (total silence)`, the cursor never decreases, each
emitted segment is strictly positive and lies between the cursor and the final
cursor, and the emitted segments are ordered and non-overlapping. -/
theorem silenceWalk_spec (l : List Interval) (c : ℚ)
    (hwf : WellFormed l) (hord : Ordered l) (hlb : LB c l) :
    sumLen (silenceWalk c l).1 = (silenceWalk c l).2 - c - sumLen l
    ∧ c ≤ (silenceWalk c l).2
    ∧ (∀ t ∈ (silenceWalk c l).1,
        c ≤ t.start ∧ t.start < t.stop ∧ t.stop ≤ (silenceWalk c l).2)
    ∧ List.Chain' (fun a b => a.stop ≤ b.start) (silenceWalk c l).1 := by
  induction l generalizing c with
  | nil =>
    simp [silenceWalk, sumLen]
  | cons s rest ih =>
    have hwfr : WellFormed rest := wellFormed_tail hwf
    have hordr : Ordered rest := ordered_tail hord
    have hlbr : LB s.stop rest := lb_of_ordered hord
    have hss : s.start ≤ s.stop := wellFormed_head hwf
    have hc : c ≤ s.start := hlb
    obtain ⟨ihSum, ihLe, ihMem, ihChain⟩ := ih s.stop hwfr hordr hlbr
    simp only [silenceWalk]
    split
    · rename_i hgt
      constructor
      · simp only [sumLen, List.map_cons, List.sum_cons] at *
        linarith
      constructor
      · linarith
      constructor
      · intro t ht
        rcases List.mem_cons.mp ht with rfl | ht'
        · refine ⟨le_refl _, hgt, ?_⟩
          simp only
          linarith
        · obtain ⟨h1, h2, h3⟩ := ihMem t ht'
          exact ⟨by linarith, h2, h3⟩
      · refine List.chain'_cons'.mpr ⟨?_, ihChain⟩
        intro b hb
        have hbmem : b ∈ (silenceWalk s.stop rest).1 :=
          List.mem_of_mem_head? hb
        have := (ihMem b hbmem).1
        simp only
        linarith
    · rename_i hng
      have heq : s.start = c := le_antisymm (not_lt.mp hng) hc
      constructor
      · simp only [sumLen, List.map_cons, List.sum_cons] at *
        linarith
      constructor
      · linarith
      constructor
      · intro t ht
        obtain ⟨h1, h2, h3⟩ := ihMem t ht
        exact ⟨by linarith, h2, h3⟩
      · exact ihChain

/-- The final cursor of the walk does not depend on the branch taken for the
head silence. -/
theorem silenceWalk_snd_cons (c : ℚ) (s : Interval) (rest : List Interval) :
    (silenceWalk c (s :: rest)).2 = (silenceWalk s.stop rest).2 := by
  simp only [silenceWalk]
  split <;> rfl

/-- For a non-empty silence list contained in `[0, D]`, the walk's final
cursor is at most `D` (it ends at the last silence's stop). -/
theorem silenceWalk_last_le (D : ℚ) (l : List Interval) (c : ℚ)
    (hne : l ≠ []) (hcont : ContainedIn D l) :
    (silenceWalk c l).2 ≤ D := by
  induction l generalizing c with
  | nil => exact absurd rfl hne
  | cons s rest ih =>
    rw [silenceWalk_snd_cons]
    cases rest with
    | nil =>
      simp only [silenceWalk]
      exact (hcont s (List.mem_cons_self _ _)).2
    | cons t rs =>
      exact ih (c := s.stop) (by simp)
        (fun u hu => hcont u (List.mem_cons_of_mem _ hu))

/-- If the silences jointly cover `[c, D)` then the walk from `c` emits no
segments and ends at or beyond `D` (or stays at `c ≥ D`). -/
theorem cover_walk (D : ℚ) (l : List Interval) (c : ℚ)
    (hwf : WellFormed l) (hord : Ordered l) (hcont : ContainedIn D l)
    (hlb : LB c l)
    (hcov : ∀ x : ℚ, c ≤ x → x < D → ∃ s ∈ l, s.start ≤ x ∧ x < s.stop) :
    (silenceWalk c l).1 = [] ∧ D ≤ max c (silenceWalk c l).2 := by
  induction l generalizing c with
  | nil =>
    refine ⟨by simp [silenceWalk], ?_⟩
    simp only [silenceWalk]
    by_contra hnot
    push_neg at hnot
    have hcD : c < D := lt_of_le_of_lt (le_max_left _ _) hnot
    obtain ⟨s, hs, _⟩ := hcov c (le_refl c) hcD
    cases hs
  | cons s rest ih =>
    have hwfr : WellFormed rest := wellFormed_tail hwf
    have hordr : Ordered rest := ordered_tail hord
    have hlbr : LB s.stop rest := lb_of_ordered hord
    have hss : s.start ≤ s.stop := wellFormed_head hwf
    have hc : c ≤ s.start := hlb
    have hsD : s.stop ≤ D := (hcont s (List.mem_cons_self _ _)).2
    -- the head silence never triggers a segment emission
    have hng : ¬ s.start > c := by
      intro hgt
      by_cases hcD : c < D
      · obtain ⟨t, ht, h1, h2⟩ := hcov c (le_refl c) hcD
        rcases List.mem_cons.mp ht with rfl | ht'
        · exact absurd h1 (not_le.mpr hgt)
        · have := ordered_head_le hord hwfr t ht'
          linarith
      · push_neg at hcD
        linarith
    have hcovr : ∀ x : ℚ, s.stop ≤ x → x < D →
        ∃ t ∈ rest, t.start ≤ x ∧ x < t.stop := by
      intro x hx hxD
      obtain ⟨t, ht, h1, h2⟩ := hcov x (by linarith) hxD
      rcases List.mem_cons.mp ht with rfl | ht'
      · exact absurd h2 (not_lt.mpr hx)
      · exact ⟨t, ht', h1, h2⟩
    obtain ⟨ihEmp, ihD⟩ := ih s.stop hwfr hordr
      (fun u hu => hcont u (List.mem_cons_of_mem _ hu)) hlbr hcovr
    have hle : s.stop ≤ (silenceWalk s.stop rest).2 :=
      (silenceWalk_spec rest s.stop hwfr hordr hlbr).2.1
    have hmax : max s.stop (silenceWalk s.stop rest).2 =
        (silenceWalk s.stop rest).2 := max_eq_right hle
    rw [hmax] at ihD
    constructor
    · simp only [silenceWalk, if_neg hng]
      exact ihEmp
    · rw [silenceWalk_snd_cons]
      exact le_trans ihD (le_max_right _ _)

/-- Helper: strictly positive, non-overlapping segments are strictly
ascending by start time. -/
theorem chain_lt_of_pos (l : List Interval)
    (h1 : List.Chain' (fun a b => a.stop ≤ b.start) l)
    (h2 : ∀ t ∈ l, t.start < t.stop) :
    List.Chain' (fun a b => a.start < b.start) l := by
  induction l with
  | nil => exact List.chain'_nil
  | cons a tl ih =>
    cases tl with
    | nil => simp
    | cons b tl2 =>
      obtain ⟨hab, hrest⟩ := List.chain'_cons.mp h1
      refine List.chain'_cons.mpr ⟨?_, ih hrest ?_⟩
      · have ha := h2 a (List.mem_cons_self _ _)
        linarith
      · intro t ht
        exact h2 t (List.mem_cons_of_mem _ ht)

/-! ## The job executor

Shallow embedding of the worker's `processVideoJob` and `processVideo`.
External effects are supplied by an `Oracle`; database rows relevant to one
job (the `videoJobs` row for `jobId`, the `workspaces` row for `workspaceId`,
the `users` row for `userId`) form the state. -/

/-- The scratch directory `join(tmpdir(), "video-processor")`, with `tmpdir()`
modelled as `/tmp`. -/
def TEMP_DIR : String := "/tmp/video-processor"

/-- `join(TEMP_DIR, "input-" + jobId + ".mp4")`. -/
def inputPath (jobId : String) : String :=
  TEMP_DIR ++ "/input-" ++ jobId ++ ".mp4"

/-- `join(TEMP_DIR, "output-" + jobId + ".mp4")`. -/
def outputPath (jobId : String) : String :=
  TEMP_DIR ++ "/output-" ++ jobId ++ ".mp4"

/-- `join(TEMP_DIR, "segment-" + Date.now() + "-" + i + ".mp4")`: scoped by
the wall-clock value `t`, not by the job id. -/
def segmentPath (t : Nat) (i : Nat) : String :=
  TEMP_DIR ++ "/segment-" ++ toString t ++ "-" ++ toString i ++ ".mp4"

/-- `join(TEMP_DIR, "concat-" + Date.now() + ".txt")`. -/
def concatPath (t : Nat) : String :=
  TEMP_DIR ++ "/concat-" ++ toString t ++ ".txt"

/-- The generated output object key
`videos/output/\x7bworkspaceId\x7d/\x7bjobId\x7d/\x7boriginalFilename\x7d`. -/
def outputFileKey (workspaceId jobId originalFilename : String) : String :=
  "videos/output/" ++ workspaceId ++ "/" ++ jobId ++ "/" ++ originalFilename

/-- Job status enum of the `videoJobs` table. -/
inductive JobStatus
  | queued
  | processing
  | completed
  | failed
deriving DecidableEq, Repr

/-- The fields of a `videoJobs` row that the worker reads or writes.
`completedAt` only records whether the timestamp column is set. -/
structure JobRow where
  status : JobStatus
  error : Option String
  outputFileKey : Option String
  duration : Option Int
  completedAt : Bool
deriving DecidableEq, Repr

/-- The fields of a `workspaces` row used by the worker. -/
structure WorkspaceRow where
  name : String
  credits : Int
deriving DecidableEq, Repr

/-- The fields of a `users` row used by the worker. -/
structure UserRow where
  email : Option String
  uname : Option String
deriving DecidableEq, Repr

/-- Database state visible to one job execution: the single rows matched by
the executor's `WHERE id = ...` clauses (`none` when no row matches). -/
structure DB where
  job : Option JobRow
  workspace : Option WorkspaceRow
  user : Option UserRow
deriving DecidableEq, Repr

/-- The queue message payload `VideoProcessingJobData`. -/
structure JobData where
  jobId : String
  workspaceId : String
  userId : String
  inputFileKey : String
  originalFilename : String
deriving DecidableEq, Repr

/-- Observable events of one execution: file-system activity, the upload, and
notification sends (recorded when the send is invoked). -/
inductive Ev
  | download (path : String)
  | copy (src dst : String)
  | extract (src dst : String)
  | writeManifest (path : String)
  | concatRun (manifest dst : String)
  | unlinkF (path : String)
  | uploadEv (key : String)
  | emailCompleted (rcpt : String)
  | emailFailed (rcpt : String)
deriving DecidableEq, Repr

/-- Outcomes of the external effects, fixed in advance: results of the R2
download and upload, of the two ffprobe runs, of the silence detection, exit
codes of the ffmpeg spawns, results of the two email sends, and the values
`Date.now()` returns (indexed by call number: call `0` names the concat
manifest, call `i+1` names segment `i`). -/
structure Oracle where
  download : Except String Unit
  durationIn : Except String ℚ
  silences : Except String (List Interval)
  copyExit : Int
  extractExit : Nat → Int
  concatExit : Int
  uploadRes : Except String Unit
  durationOut : Except String ℚ
  completedEmail : Except String Unit
  failedEmail : Except String Unit
  now : Nat → Nat

/-- JavaScript `Math.round`: half-up rounding. -/
def jsRound (x : ℚ) : Int := Int.floor (x + 1 / 2)

/-- JavaScript truthiness of `user[0]?.email`: a user row must exist and its
email must be non-null and non-empty. -/
def emailTruthy : Option UserRow → Bool
  | some u =>
    match u.email with
    | some em => !(em == "")
    | none => false
  | none => false

/-- The address an email is sent to (defined when `emailTruthy` holds). -/
def emailAddr : Option UserRow → String
  | some u => u.email.getD ""
  | none => ""

/-- The per-segment extraction loop of `processVideo`: segment `i` is written
to `segmentPath (Date.now()) i`; a non-zero ffmpeg exit code throws.  Returns
the extraction events, the list of segment paths, and the error if any. -/
def extractLoop (o : Oracle) (src : String) :
    Nat → List Interval → List Ev × List String × Option String
  | _, [] => ([], [], none)
  | i, _ :: rest =>
    let p := segmentPath (o.now (i + 1)) i
    if o.extractExit i = 0 then
      let r := extractLoop o src (i + 1) rest
      (Ev.extract src p :: r.1, p :: r.2.1, r.2.2)
    else
      ([], [],
        some ("FFmpeg segment extraction failed with code "
          ++ toString (o.extractExit i)))

/-- Translation of `processVideo(inputPath, outputPath)`: probe the duration,
detect silences, and either stream-copy the file (no silences) or extract the
planned segments, concatenate them, and delete the per-segment files and the
manifest.  Returns the events performed and the thrown error, if any. -/
def processVideo (o : Oracle) (src dst : String) : List Ev × Option String :=
  match o.durationIn with
  | .error e => ([], some e)
  | .ok duration =>
    match o.silences with
    | .error e => ([], some e)
    | .ok silences =>
      if silences.length = 0 then
        if o.copyExit = 0 then ([Ev.copy src dst], none)
        else ([], some ("FFmpeg copy failed with code " ++ toString o.copyExit))
      else
        let segments := buildNonSilentSegments duration silences
        let manifest := concatPath (o.now 0)
        let r := extractLoop o src 0 segments
        match r.2.2 with
        | some e => (r.1, some e)
        | none =>
          if o.concatExit = 0 then
            (r.1 ++ [Ev.writeManifest manifest, Ev.concatRun manifest dst]
              ++ r.2.1.map Ev.unlinkF ++ [Ev.unlinkF manifest], none)
          else
            (r.1 ++ [Ev.writeManifest manifest],
              some ("FFmpeg concatenation failed with code "
                ++ toString o.concatExit))

/-- The result of one `processVideoJob` invocation: final database state,
event trace, and the error rethrown to BullMQ (if any). -/
structure RunResult where
  db : DB
  trace : List Ev
  rethrown : Option String
deriving DecidableEq, Repr

/-- Translation of the `catch` block of `processVideoJob`: set the job row to
`failed` with the error message, increment the owning workspace's credits when
that row exists, send the failure email when a user with a truthy email and
the workspace row exist, and rethrow. -/
def handleFailure (o : Oracle) (db : DB) (tr : List Ev) (msg : String) :
    RunResult :=
  let dbA : DB := { db with job := db.job.map (fun j =>
    { j with status := .failed, error := some msg, completedAt := true }) }
  let dbB : DB :=
    match dbA.workspace with
    | some w => { dbA with workspace := some { w with credits := w.credits + 1 } }
    | none => dbA
  if emailTruthy dbB.user && dbB.workspace.isSome then
    match o.failedEmail with
    | .error e =>
      { db := dbB, trace := tr ++ [Ev.emailFailed (emailAddr dbB.user)],
        rethrown := some e }
    | .ok _ =>
      { db := dbB, trace := tr ++ [Ev.emailFailed (emailAddr dbB.user)],
        rethrown := some msg }
  else
    { db := dbB, trace := tr, rethrown := some msg }

/-- The body of `processVideoJob` after the initial `processing` update:
download the input, run `processVideo`, upload the output, best-effort probe
the output duration, set the job row to `completed`, send the completion email
when user and workspace rows allow it, and delete the input and output files;
any thrown error is handled by `handleFailure`. -/
def runBody (jd : JobData) (o : Oracle) (db1 : DB) : RunResult :=
  match o.download with
  | .error e => handleFailure o db1 [] e
  | .ok _ =>
    let src := inputPath jd.jobId
    let dst := outputPath jd.jobId
    let tr1 : List Ev := [Ev.download src]
    let pv := processVideo o src dst
    match pv.2 with
    | some e => handleFailure o db1 (tr1 ++ pv.1) e
    | none =>
      let key := outputFileKey jd.workspaceId jd.jobId jd.originalFilename
      match o.uploadRes with
      | .error e => handleFailure o db1 (tr1 ++ pv.1) e
      | .ok _ =>
        let tr3 := tr1 ++ pv.1 ++ [Ev.uploadEv key]
        let durOut : Option Int :=
          match o.durationOut with
          | .error _ => none
          | .ok d => if d = 0 then none else some (jsRound d)
        let db2 : DB := { db1 with job := db1.job.map (fun j =>
          { j with status := .completed, outputFileKey := some key,
                   duration := durOut, completedAt := true }) }
        if emailTruthy db2.user && db2.workspace.isSome then
          match o.completedEmail with
          | .error e =>
            handleFailure o db2 (tr3 ++ [Ev.emailCompleted (emailAddr db2.user)]) e
          | .ok _ =>
            { db := db2,
              trace := tr3 ++ [Ev.emailCompleted (emailAddr db2.user),
                Ev.unlinkF src, Ev.unlinkF dst],
              rethrown := none }
        else
          { db := db2,
            trace := tr3 ++ [Ev.unlinkF src, Ev.unlinkF dst],
            rethrown := none }

/-- Translation of `processVideoJob(job)`: the job row is set to `processing`
first (unconditionally, with no terminal-state check), then `runBody` runs the
pipeline on the updated state. -/
def processVideoJob (jd : JobData) (o : Oracle) (db : DB) : RunResult :=
  runBody jd o { db with job := db.job.map (fun j =>
    { j with status := .processing }) }

/-- The scratch path a single event creates, if any. -/
def createdOf : Ev → Option String
  | .download p => some p
  | .copy _ dst => some dst
  | .extract _ dst => some dst
  | .writeManifest p => some p
  | .concatRun _ dst => some dst
  | _ => none

/-- All scratch paths created along a trace. -/
def createdPaths (tr : List Ev) : List String := tr.filterMap createdOf

/-- The path a single event deletes, if any. -/
def deletedOf : Ev → Option String
  | .unlinkF p => some p
  | _ => none

/-- All paths deleted along a trace. -/
def deletedPaths (tr : List Ev) : List String := tr.filterMap deletedOf

/-! ## Helper lemmas -/

/-- Two character lists with different characters at a common position stay
different under arbitrary suffixes. -/
theorem ne_of_char_clash (p q x y : List Char) (n : Nat)
    (hp : n < p.length) (hq : n < q.length)
    (h : p[n]? ≠ q[n]?) :
    p ++ x ≠ q ++ y := by
  intro he
  apply h
  rw [← List.getElem?_append_left hp, ← List.getElem?_append_left hq, he]

/-- Strings sharing a fixed prefix and suffix are equal only when their middle
parts are. -/
theorem affix_inj (pre suf a b : String)
    (h : pre ++ a ++ suf = pre ++ b ++ suf) : a = b := by
  have hd : (pre.data ++ a.data) ++ suf.data = (pre.data ++ b.data) ++ suf.data :=
    congrArg String.data h
  have h2 := List.append_cancel_right hd
  exact String.ext (List.append_cancel_left h2)

theorem inputPath_inj {a b : String} (h : inputPath a = inputPath b) : a = b :=
  affix_inj (TEMP_DIR ++ "/input-") ".mp4" a b h

theorem outputPath_inj {a b : String} (h : outputPath a = outputPath b) :
    a = b :=
  affix_inj (TEMP_DIR ++ "/output-") ".mp4" a b h

theorem inputPath_ne_outputPath (a b : String) : inputPath a ≠ outputPath b := by
  have hclash := ne_of_char_clash ((TEMP_DIR ++ "/input-").data)
    ((TEMP_DIR ++ "/output-").data) (a.data ++ ".mp4".data)
    (b.data ++ ".mp4".data) 21 (by decide) (by decide) (by decide)
  intro h
  apply hclash
  have hd := congrArg String.data h
  simp only [inputPath, outputPath] at hd
  calc (TEMP_DIR ++ "/input-").data ++ (a.data ++ ".mp4".data)
      = (inputPath a).data := by
        simp [inputPath, List.append_assoc]
    _ = (outputPath b).data := hd
    _ = (TEMP_DIR ++ "/output-").data ++ (b.data ++ ".mp4".data) := by
        simp [outputPath, List.append_assoc]

/-- The walk from `0` of a fully covering, ordered, well-formed, contained
silence list emits nothing and ends at or beyond `D`, so the planner returns
the empty segment list. -/
theorem full_cover_plan_empty (D : ℚ) (l : List Interval)
    (hne : l ≠ []) (hwf : WellFormed l) (hord : Ordered l)
    (hcont : ContainedIn D l) (hcov : Covers D l) :
    buildNonSilentSegments D l = [] := by
  have hlb : LB 0 l := by
    cases l with
    | nil => trivial
    | cons s rest => exact (hcont s (List.mem_cons_self _ _)).1
  obtain ⟨hEmp, hD⟩ := cover_walk D l 0 hwf hord hcont hlb hcov
  have h0 : 0 ≤ (silenceWalk 0 l).2 :=
    (silenceWalk_spec l 0 hwf hord hlb).2.1
  rw [max_eq_right h0] at hD
  simp only [buildNonSilentSegments]
  rw [if_neg (by simpa using hne), if_neg (not_lt.mpr hD)]
  exact hEmp

/-- `processVideo` in the no-silence configuration: a single stream copy. -/
theorem processVideo_copy (o : Oracle) (src dst : String) (D : ℚ)
    (hdur : o.durationIn = .ok D) (hsil : o.silences = .ok [])
    (hcopy : o.copyExit = 0) :
    processVideo o src dst = ([Ev.copy src dst], none) := by
  simp [processVideo, hdur, hsil, hcopy]

/-! ## Claims about the segment planner -/

/-- C7: for every duration `D` and every ordered, non-overlapping silence
list contained in `[0, D]` whose total silence time `T` is less than `D`, the
segment lengths returned by the planner sum to `D - T`. -/
theorem C7_sum_lengths (D : ℚ) (silences : List Interval)
    (hwf : WellFormed silences) (hord : Ordered silences)
    (hcont : ContainedIn D silences) (hT : sumLen silences < D) :
    sumLen (buildNonSilentSegments D silences) = D - sumLen silences := by
  cases silences with
  | nil =>
    simp [buildNonSilentSegments, sumLen]
  | cons s rest =>
    have hlb : LB 0 (s :: rest) := (hcont s (List.mem_cons_self _ _)).1
    obtain ⟨hSum, hLe, hMem, hChain⟩ :=
      silenceWalk_spec (s :: rest) 0 hwf hord hlb
    have hlast : (silenceWalk 0 (s :: rest)).2 ≤ D :=
      silenceWalk_last_le D (s :: rest) 0 (by simp) hcont
    simp only [buildNonSilentSegments, List.length_cons]
    rw [if_neg (by simp)]
    split
    · rename_i hlt
      simp only [sumLen, List.map_append, List.sum_append, List.map_cons,
        List.map_nil, List.sum_cons, List.sum_nil] at *
      linarith
    · rename_i hge
      have : (silenceWalk 0 (s :: rest)).2 = D :=
        le_antisymm hlast (not_lt.mp hge)
      simp only [sumLen] at *
      linarith

/-- Witness for C7 at the spec's own example `D = 100`,
`S = [[10,15],[40,42]]`: the segment lengths sum to `100 - 7 = 93`. -/
theorem C7_sum_lengths_witness :
    WellFormed [⟨10, 15⟩, ⟨40, 42⟩] ∧ Ordered [⟨10, 15⟩, ⟨40, 42⟩]
    ∧ ContainedIn 100 [⟨10, 15⟩, ⟨40, 42⟩]
    ∧ sumLen [⟨10, 15⟩, ⟨40, 42⟩] < 100
    ∧ sumLen (buildNonSilentSegments 100 [⟨10, 15⟩, ⟨40, 42⟩])
        = 100 - sumLen [⟨10, 15⟩, ⟨40, 42⟩] := by
  have hwf : WellFormed [⟨10, 15⟩, ⟨40, 42⟩] := by
    intro s hs; fin_cases hs <;> norm_num
  have hord : Ordered [⟨10, 15⟩, ⟨40, 42⟩] :=
    List.chain'_cons.mpr ⟨by norm_num, List.chain'_singleton _⟩
  have hcont : ContainedIn 100 [⟨10, 15⟩, ⟨40, 42⟩] := by
    intro s hs; fin_cases hs <;> refine ⟨by norm_num, by norm_num⟩
  have hT : sumLen [⟨10, 15⟩, ⟨40, 42⟩] < 100 := by
    norm_num [sumLen]
  exact ⟨hwf, hord, hcont, hT,
    C7_sum_lengths 100 [⟨10, 15⟩, ⟨40, 42⟩] hwf hord hcont hT⟩

/-- C8 counterexample: the claim quantifies over every duration; at duration
`0` with no silences the planner returns the single segment `[0, 0)`, which
has zero length, so not every returned segment has strictly positive
length. -/
theorem C8_zero_duration_cex :
    buildNonSilentSegments 0 [] = [⟨0, 0⟩]
    ∧ ¬ (∀ t ∈ buildNonSilentSegments 0 [], t.start < t.stop) := by
  constructor
  · decide
  · decide

/-- C8 (amended with `0 < D`): for every positive duration `D` and every
ordered, non-overlapping silence list contained in `[0, D]`, every planned
segment has strictly positive length, consecutive segments do not overlap
(each ends no later than the next starts), and the segments are strictly
ascending by start time; in particular touching silences never yield a
zero-length segment. -/
theorem C8_segments_wellformed (D : ℚ) (silences : List Interval)
    (hwf : WellFormed silences) (hord : Ordered silences)
    (hcont : ContainedIn D silences) (hD : 0 < D) :
    (∀ t ∈ buildNonSilentSegments D silences, t.start < t.stop)
    ∧ List.Chain' (fun a b => a.stop ≤ b.start)
        (buildNonSilentSegments D silences)
    ∧ List.Chain' (fun a b => a.start < b.start)
        (buildNonSilentSegments D silences) := by
  have main : (∀ t ∈ buildNonSilentSegments D silences, t.start < t.stop)
      ∧ List.Chain' (fun a b => a.stop ≤ b.start)
          (buildNonSilentSegments D silences) := by
    cases silences with
    | nil =>
      constructor
      · intro t ht
        simp [buildNonSilentSegments] at ht
        subst ht
        exact hD
      · simp [buildNonSilentSegments]
    | cons s rest =>
      have hlb : LB 0 (s :: rest) := (hcont s (List.mem_cons_self _ _)).1
      obtain ⟨hSum, hLe, hMem, hChain⟩ :=
        silenceWalk_spec (s :: rest) 0 hwf hord hlb
      simp only [buildNonSilentSegments, List.length_cons]
      rw [if_neg (by simp)]
      split
      · rename_i hlt
        constructor
        · intro t ht
          rcases List.mem_append.mp ht with ht' | ht'
          · exact (hMem t ht').2.1
          · rw [List.mem_singleton] at ht'
            subst ht'
            exact hlt
        · rw [List.chain'_append]
          refine ⟨hChain, by simp, ?_⟩
          intro a ha b hb
          have ha' : a ∈ (silenceWalk 0 (s :: rest)).1 :=
            List.mem_of_mem_getLast? ha
          simp only [List.head?_cons, Option.mem_def, Option.some.injEq] at hb
          subst hb
          exact (hMem a ha').2.2
      · constructor
        · intro t ht
          exact (hMem t ht).2.1
        · exact hChain
  exact ⟨main.1, main.2, chain_lt_of_pos _ main.2 main.1⟩

/-- Witness for C8 at the spec's touching-silences example
`D = 30`, `S = [[10,15],[15,20]]`. -/
theorem C8_segments_wellformed_witness :
    WellFormed [⟨10, 15⟩, ⟨15, 20⟩] ∧ Ordered [⟨10, 15⟩, ⟨15, 20⟩]
    ∧ ContainedIn 30 [⟨10, 15⟩, ⟨15, 20⟩] ∧ (0 : ℚ) < 30
    ∧ (∀ t ∈ buildNonSilentSegments 30 [⟨10, 15⟩, ⟨15, 20⟩],
        t.start < t.stop) := by
  have hwf : WellFormed [⟨10, 15⟩, ⟨15, 20⟩] := by
    intro s hs; fin_cases hs <;> norm_num
  have hord : Ordered [⟨10, 15⟩, ⟨15, 20⟩] :=
    List.chain'_cons.mpr ⟨by norm_num, List.chain'_singleton _⟩
  have hcont : ContainedIn 30 [⟨10, 15⟩, ⟨15, 20⟩] := by
    intro s hs; fin_cases hs <;> refine ⟨by norm_num, by norm_num⟩
  exact ⟨hwf, hord, hcont, by norm_num,
    (C8_segments_wellformed 30 [⟨10, 15⟩, ⟨15, 20⟩]
      hwf hord hcont (by norm_num)).1⟩

/-- C9: with an empty detected-silence list the planner returns exactly one
segment `[0, D)`, and `processVideo` takes the verbatim-copy path: its whole
activity is one stream copy from source to output, with no per-segment
extraction and no concatenation. -/
theorem C9_no_silence_copy (o : Oracle) (src dst : String) (D : ℚ)
    (hdur : o.durationIn = .ok D) (hsil : o.silences = .ok [])
    (hcopy : o.copyExit = 0) :
    buildNonSilentSegments D [] = [⟨0, D⟩]
    ∧ processVideo o src dst = ([Ev.copy src dst], none) :=
  ⟨by simp [buildNonSilentSegments],
    processVideo_copy o src dst D hdur hsil hcopy⟩

/-! ## Concrete fixtures used by witnesses and counterexamples -/

/-- A queue message for job id `job-a`. -/
def jd0 : JobData :=
  ⟨"job-a", "ws-1", "user-1", "videos/input/ws-1/job-a/clip.mp4", "clip.mp4"⟩

/-- A queue message for the distinct job id `job-b`. -/
def jd1 : JobData :=
  ⟨"job-b", "ws-1", "user-1", "videos/input/ws-1/job-b/clip.mp4", "clip.mp4"⟩

/-- A fresh queued job row. -/
def j0 : JobRow := ⟨.queued, none, none, none, false⟩

/-- A workspace row with zero credits. -/
def w0 : WorkspaceRow := ⟨"Acme", 0⟩

/-- A user row with a truthy email address. -/
def u0 : UserRow := ⟨some "user@example.com", some "Ada"⟩

/-- Database state with all three rows present. -/
def db0 : DB := ⟨some j0, some w0, some u0⟩

/-- Oracle: everything succeeds, no silences detected.  The output-duration
probe fails, which the worker treats as best-effort. -/
def okOracle : Oracle :=
  { download := .ok (), durationIn := .ok 60, silences := .ok [],
    copyExit := 0, extractExit := fun _ => 0, concatExit := 0,
    uploadRes := .ok (), durationOut := .error "probe failed",
    completedEmail := .ok (), failedEmail := .ok (), now := fun _ => 7 }

/-- Oracle: the R2 download fails immediately. -/
def oFail : Oracle :=
  { download := .error "boom", durationIn := .ok 60, silences := .ok [],
    copyExit := 0, extractExit := fun _ => 0, concatExit := 0,
    uploadRes := .ok (), durationOut := .error "probe failed",
    completedEmail := .ok (), failedEmail := .ok (), now := fun _ => 7 }

/-- Oracle: the whole pipeline succeeds but the completion email fails. -/
def oEmailFail : Oracle :=
  { download := .ok (), durationIn := .ok 60, silences := .ok [],
    copyExit := 0, extractExit := fun _ => 0, concatExit := 0,
    uploadRes := .ok (), durationOut := .error "probe failed",
    completedEmail := .error "smtp down", failedEmail := .ok (),
    now := fun _ => 7 }

/-- Oracle: processing succeeds but the R2 upload fails. -/
def oUploadFail : Oracle :=
  { download := .ok (), durationIn := .ok 60, silences := .ok [],
    copyExit := 0, extractExit := fun _ => 0, concatExit := 0,
    uploadRes := .error "upload failed", durationOut := .error "probe failed",
    completedEmail := .ok (), failedEmail := .ok (), now := fun _ => 7 }

/-- Oracle: one detected silence `[0,1)` in a 2-second clip; everything
succeeds, so the segment-extraction path runs. -/
def oSeg : Oracle :=
  { download := .ok (), durationIn := .ok 2, silences := .ok [⟨0, 1⟩],
    copyExit := 0, extractExit := fun _ => 0, concatExit := 0,
    uploadRes := .ok (), durationOut := .error "probe failed",
    completedEmail := .ok (), failedEmail := .ok (), now := fun _ => 7 }

/-- Oracle: silence `[0,2)` covers the whole 2-second clip and the
concatenation of zero clips fails with exit code 1. -/
def oC6 : Oracle :=
  { download := .ok (), durationIn := .ok 2, silences := .ok [⟨0, 2⟩],
    copyExit := 0, extractExit := fun _ => 0, concatExit := 1,
    uploadRes := .ok (), durationOut := .error "probe failed",
    completedEmail := .ok (), failedEmail := .ok (), now := fun _ => 7 }

/-- Oracle: silence `[0,2)` covers the whole 2-second clip and the external
concatenation of zero clips reports success. -/
def oC6ok : Oracle :=
  { download := .ok (), durationIn := .ok 2, silences := .ok [⟨0, 2⟩],
    copyExit := 0, extractExit := fun _ => 0, concatExit := 0,
    uploadRes := .ok (), durationOut := .error "probe failed",
    completedEmail := .ok (), failedEmail := .ok (), now := fun _ => 7 }

/-- Witness for C9 on `okOracle`. -/
theorem C9_no_silence_copy_witness :
    okOracle.durationIn = .ok 60 ∧ okOracle.silences = .ok []
    ∧ okOracle.copyExit = 0
    ∧ buildNonSilentSegments 60 [] = [⟨0, 60⟩]
    ∧ processVideo okOracle (inputPath "job-a") (outputPath "job-a")
        = ([Ev.copy (inputPath "job-a") (outputPath "job-a")], none) := by
  have h := C9_no_silence_copy okOracle (inputPath "job-a")
    (outputPath "job-a") 60 rfl rfl rfl
  exact ⟨rfl, rfl, rfl, h.1, h.2⟩

/-! ## Component lemmas about the failure handler -/

theorem handleFailure_job (o : Oracle) (db : DB) (tr : List Ev)
    (msg : String) :
    (handleFailure o db tr msg).db.job =
      db.job.map (fun j =>
        { j with status := .failed, error := some msg,
                 completedAt := true }) := by
  obtain ⟨jb, ws, us⟩ := db
  cases hfe : o.failedEmail <;> cases ws <;>
    simp [handleFailure, hfe] <;> split <;> rfl

theorem handleFailure_workspace (o : Oracle) (db : DB) (tr : List Ev)
    (msg : String) :
    (handleFailure o db tr msg).db.workspace =
      match db.workspace with
      | some w => some { w with credits := w.credits + 1 }
      | none => none := by
  obtain ⟨jb, ws, us⟩ := db
  cases hfe : o.failedEmail <;> cases ws <;>
    simp [handleFailure, hfe] <;> split <;> rfl

theorem handleFailure_user (o : Oracle) (db : DB) (tr : List Ev)
    (msg : String) :
    (handleFailure o db tr msg).db.user = db.user := by
  obtain ⟨jb, ws, us⟩ := db
  cases hfe : o.failedEmail <;> cases ws <;>
    simp [handleFailure, hfe] <;> split <;> rfl

theorem handleFailure_rethrown (o : Oracle) (db : DB) (tr : List Ev)
    (msg : String) :
    (handleFailure o db tr msg).rethrown.isSome = true := by
  obtain ⟨jb, ws, us⟩ := db
  cases hfe : o.failedEmail <;> cases ws <;>
    simp [handleFailure, hfe] <;> split <;> rfl

/-- When no workspace row exists, the failure handler appends no events: in
particular it sends no failure email. -/
theorem handleFailure_trace_noWs (o : Oracle) (db : DB) (tr : List Ev)
    (msg : String) (hw : db.workspace = none) :
    (handleFailure o db tr msg).trace = tr := by
  obtain ⟨jb, ws, us⟩ := db
  cases ws with
  | none => simp [handleFailure]
  | some w => cases hw

/-- When no workspace row exists, the failure handler rethrows the original
error message. -/
theorem handleFailure_rethrown_noWs (o : Oracle) (db : DB) (tr : List Ev)
    (msg : String) (hw : db.workspace = none) :
    (handleFailure o db tr msg).rethrown = some msg := by
  obtain ⟨jb, ws, us⟩ := db
  cases ws with
  | none => simp [handleFailure]
  | some w => cases hw

/-! ## Claims about the executor -/

/-- C10: when the workspace lookup in the failure handler returns no row, the
job is still marked failed with its error message, but no credit is refunded
(there is no workspace state at all to change), no failure email is sent (the
trace stays empty), and the error is rethrown. -/
theorem C10_no_workspace_no_refund (jd : JobData) (o : Oracle) (db : DB)
    (msg : String) (hdl : o.download = .error msg)
    (hw : db.workspace = none) :
    (processVideoJob jd o db).db.job =
      db.job.map (fun j =>
        { j with status := .failed, error := some msg, completedAt := true })
    ∧ (processVideoJob jd o db).db.workspace = none
    ∧ (processVideoJob jd o db).trace = []
    ∧ (processVideoJob jd o db).rethrown = some msg := by
  obtain ⟨jb, ws, us⟩ := db
  cases ws with
  | some w => exact absurd hw (by simp)
  | none =>
    have hrun : processVideoJob jd o ⟨jb, none, us⟩ =
        handleFailure o
          ⟨jb.map (fun j => { j with status := .processing }), none, us⟩
          [] msg := by
      simp [processVideoJob, runBody, hdl]
    rw [hrun]
    refine ⟨?_, ?_, ?_, ?_⟩
    · rw [handleFailure_job]
      cases jb with
      | none => rfl
      | some j => cases j; rfl
    · rw [handleFailure_workspace]
    · exact handleFailure_trace_noWs _ _ _ _ rfl
    · exact handleFailure_rethrown_noWs _ _ _ _ rfl

/-- Database state without a workspace row. -/
def dbNoWs : DB := ⟨some j0, none, some u0⟩

/-- Witness for C10: a failing job whose workspace row is missing. -/
theorem C10_no_workspace_no_refund_witness :
    oFail.download = .error "boom" ∧ dbNoWs.workspace = none
    ∧ (processVideoJob jd0 oFail dbNoWs).db.job =
        dbNoWs.job.map (fun j =>
          { j with status := .failed, error := some "boom",
                   completedAt := true })
    ∧ (processVideoJob jd0 oFail dbNoWs).trace = [] := by
  have h := C10_no_workspace_no_refund jd0 oFail dbNoWs "boom" rfl rfl
  exact ⟨rfl, rfl, h.1, h.2.2.1⟩

/-- C1 counterexample: the failure handler is not idempotent per job id — a
second delivery of the same failing job id refunds a second credit.  Starting
from zero credits, two failing executions of the job `job-a` leave the
workspace with two credits. -/
theorem C1_refund_double_cex :
    (processVideoJob jd0 oFail db0).db.workspace = some ⟨"Acme", 1⟩
    ∧ (processVideoJob jd0 oFail
        (processVideoJob jd0 oFail db0).db).db.workspace
        = some ⟨"Acme", 2⟩ := by
  refine ⟨?_, ?_⟩ <;> decide

/-- C1 (amended): one credit refund is issued per traversal of the failure
path (whenever the workspace row exists), not per failed job id: a run whose
download fails increments the credits by one, and re-entering the failure
path for the same job id via redelivery increments them again. -/
theorem C1_refund_per_entry (jd : JobData) (o : Oracle) (db : DB)
    (w : WorkspaceRow) (e : String)
    (hdl : o.download = .error e) (hw : db.workspace = some w) :
    (processVideoJob jd o db).db.workspace
      = some { w with credits := w.credits + 1 }
    ∧ (processVideoJob jd o (processVideoJob jd o db).db).db.workspace
      = some { w with credits := w.credits + 2 } := by
  have hstep : ∀ (d : DB) (w' : WorkspaceRow), d.workspace = some w' →
      (processVideoJob jd o d).db.workspace
        = some { w' with credits := w'.credits + 1 } := by
    intro d w' hd
    have hrun : processVideoJob jd o d =
        handleFailure o
          { d with job := d.job.map (fun j => { j with status := .processing }) }
          [] e := by
      simp [processVideoJob, runBody, hdl]
    rw [hrun, handleFailure_workspace]
    obtain ⟨jb, ws, us⟩ := d
    cases ws with
    | some w2 =>
      simp only [Option.some.injEq] at hd
      subst hd
      rfl
    | none => cases hd
  have h1 := hstep db w hw
  refine ⟨h1, ?_⟩
  have h2 := hstep _ { w with credits := w.credits + 1 } h1
  rw [h2]
  cases w with
  | mk n c =>
    simp only [Option.some.injEq, WorkspaceRow.mk.injEq]
    exact ⟨trivial, by omega⟩

/-- Witness for C1 (amended) on concrete data. -/
theorem C1_refund_per_entry_witness :
    oFail.download = .error "boom" ∧ db0.workspace = some w0
    ∧ (processVideoJob jd0 oFail db0).db.workspace
        = some { w0 with credits := w0.credits + 1 }
    ∧ (processVideoJob jd0 oFail
        (processVideoJob jd0 oFail db0).db).db.workspace
        = some { w0 with credits := w0.credits + 2 } := by
  have h := C1_refund_per_entry jd0 oFail db0 w0 "boom" rfl rfl
  exact ⟨rfl, rfl, h.1, h.2⟩

/-- A job row already in the terminal `completed` state. -/
def jDone : JobRow :=
  ⟨.completed, none, some "videos/output/ws-1/job-a/clip.mp4", some 60, true⟩

/-- Database state whose job row is already terminal. -/
def dbDone : DB := ⟨some jDone, some w0, some u0⟩

/-- C4 counterexample: a redelivery for a job id already in the terminal
`completed` state is not a no-op — the failing re-execution overwrites the
terminal record and flips it to `failed`. -/
theorem C4_terminal_overwrite_cex :
    dbDone.job.map JobRow.status = some .completed
    ∧ (processVideoJob jd0 oFail dbDone).db.job.map JobRow.status
        = some .failed
    ∧ (processVideoJob jd0 oFail dbDone).db ≠ dbDone := by
  refine ⟨rfl, ?_, ?_⟩ <;> decide

/-- C4 (amended): the executor performs no terminal-state check at all — its
result is completely insensitive to the prior status of the job row, so a
redelivered terminal job is re-entered into `processing` and re-run exactly
like a fresh job, overwriting the terminal record with the new outcome. -/
theorem C4_status_insensitive (jd : JobData) (o : Oracle) (db : DB)
    (r : JobRow) (s0 : JobStatus) (hjob : db.job = some r) :
    processVideoJob jd o { db with job := some { r with status := s0 } }
      = processVideoJob jd o db := by
  obtain ⟨jb, ws, us⟩ := db
  obtain rfl : jb = some r := hjob
  simp only [processVideoJob]
  congr 1

/-- Witness for C4 (amended): starting from `completed` gives the same result
as starting from `queued`. -/
theorem C4_status_insensitive_witness :
    db0.job = some j0
    ∧ processVideoJob jd0 oFail
        { db0 with job := some { j0 with status := .completed } }
      = processVideoJob jd0 oFail db0 :=
  ⟨rfl, C4_status_insensitive jd0 oFail db0 j0 .completed rfl⟩

/-- C2 counterexample: when the whole pipeline succeeds but the completion
email fails, the job that was already set to `completed` is flipped to
`failed`, the email error message is stored on the job, and a credit is
refunded — the notification failure is not merely logged. -/
theorem C2_notify_flip_cex :
    (processVideoJob jd0 oEmailFail db0).db.job.map JobRow.status
      = some .failed
    ∧ (processVideoJob jd0 oEmailFail db0).db.job.map JobRow.error
      = some (some "smtp down")
    ∧ (processVideoJob jd0 oEmailFail db0).db.workspace = some ⟨"Acme", 1⟩ := by
  refine ⟨?_, ?_, ?_⟩ <;> decide

/-- C2 (amended): the completion-email send is awaited inside the same
`try` block as the pipeline, so its failure enters the generic failure
handler: a job already persisted as `completed` is re-written to `failed`
with the email error message, one credit is refunded to the workspace, and
the error is rethrown. -/
theorem C2_notify_failure_refunds (jd : JobData) (o : Oracle) (db : DB)
    (j : JobRow) (w : WorkspaceRow) (D : ℚ) (e : String)
    (hjob : db.job = some j) (hw : db.workspace = some w)
    (hu : emailTruthy db.user = true)
    (hdl : o.download = .ok ()) (hdur : o.durationIn = .ok D)
    (hsil : o.silences = .ok []) (hcopy : o.copyExit = 0)
    (hup : o.uploadRes = .ok ()) (hmail : o.completedEmail = .error e) :
    (processVideoJob jd o db).db.job.map JobRow.status = some .failed
    ∧ (processVideoJob jd o db).db.job.map JobRow.error = some (some e)
    ∧ (processVideoJob jd o db).db.workspace
        = some { w with credits := w.credits + 1 }
    ∧ (processVideoJob jd o db).rethrown.isSome = true := by
  obtain ⟨jb, ws, us⟩ := db
  obtain rfl : jb = some j := hjob
  obtain rfl : ws = some w := hw
  have hu' : emailTruthy us = true := hu
  have hpv := processVideo_copy o (inputPath jd.jobId) (outputPath jd.jobId)
    D hdur hsil hcopy
  simp only [processVideoJob, runBody, hdl, hpv, hup, hmail, hu',
    Option.map_some, Option.isSome_some, Bool.and_self, if_true]
  refine ⟨?_, ?_, ?_, handleFailure_rethrown _ _ _ _⟩
  · rw [handleFailure_job]; rfl
  · rw [handleFailure_job]; rfl
  · rw [handleFailure_workspace]

/-- Witness for C2 (amended) on concrete data. -/
theorem C2_notify_failure_refunds_witness :
    oEmailFail.completedEmail = .error "smtp down"
    ∧ emailTruthy db0.user = true
    ∧ (processVideoJob jd0 oEmailFail db0).db.job.map JobRow.status
        = some .failed
    ∧ (processVideoJob jd0 oEmailFail db0).db.workspace
        = some { w0 with credits := w0.credits + 1 } := by
  have h := C2_notify_failure_refunds jd0 oEmailFail db0 j0 w0 60 "smtp down"
    rfl rfl (by decide) rfl rfl rfl rfl rfl rfl
  exact ⟨rfl, by decide, h.1, h.2.2.1⟩

/-- C6 counterexample: with silences `[0,2)` fully covering the 2-second
clip, the planner returns the empty segment list, but the executor does not
deterministically fail the job: when the external concatenation of the empty
manifest reports success, the job completes. -/
theorem C6_full_cover_complete_cex :
    buildNonSilentSegments 2 [⟨0, 2⟩] = []
    ∧ (processVideoJob jd0 oC6ok db0).db.job.map JobRow.status
        = some .completed
    ∧ (processVideoJob jd0 oC6ok db0).rethrown = none := by
  refine ⟨?_, ?_, ?_⟩ <;> decide

/-- C6 (amended): when the ordered, non-overlapping silences fully cover
`[0, D]`, the planner returns the empty segment list; the executor has no
distinct handling for it — it extracts zero segments and hands an empty
manifest to the external concatenation, and only if that external call fails
does the job end `failed` with the concatenation error message (and the error
rethrown). -/
theorem C6_full_cover_empty_plan (D : ℚ) (l : List Interval) (jd : JobData)
    (o : Oracle) (db : DB) (j : JobRow)
    (hne : l ≠ []) (hwf : WellFormed l) (hord : Ordered l)
    (hcont : ContainedIn D l) (hcov : Covers D l)
    (hjob : db.job = some j)
    (hdl : o.download = .ok ()) (hdur : o.durationIn = .ok D)
    (hsil : o.silences = .ok l) (hcc : o.concatExit ≠ 0) :
    buildNonSilentSegments D l = []
    ∧ (processVideoJob jd o db).db.job.map JobRow.status = some .failed
    ∧ (processVideoJob jd o db).db.job.map JobRow.error
        = some (some ("FFmpeg concatenation failed with code "
            ++ toString o.concatExit))
    ∧ (processVideoJob jd o db).rethrown.isSome = true := by
  have hplan := full_cover_plan_empty D l hne hwf hord hcont hcov
  have hpv : processVideo o (inputPath jd.jobId) (outputPath jd.jobId) =
      ([Ev.writeManifest (concatPath (o.now 0))],
        some ("FFmpeg concatenation failed with code "
          ++ toString o.concatExit)) := by
    simp only [processVideo, hdur, hsil]
    rw [if_neg (by simpa using hne), hplan]
    simp [extractLoop, hcc]
  obtain ⟨jb, ws, us⟩ := db
  obtain rfl : jb = some j := hjob
  simp only [processVideoJob, runBody, hdl, hpv]
  refine ⟨hplan, ?_, ?_, handleFailure_rethrown _ _ _ _⟩
  · rw [handleFailure_job]; rfl
  · rw [handleFailure_job]; rfl

/-- Witness for C6 (amended) with the full-cover silence list `[[0,2)]` and
a concatenation exit code of 1. -/
theorem C6_full_cover_empty_plan_witness :
    Covers 2 [⟨0, 2⟩]
    ∧ buildNonSilentSegments 2 [⟨0, 2⟩] = []
    ∧ (processVideoJob jd0 oC6 db0).db.job.map JobRow.status = some .failed := by
  have hcov : Covers 2 [⟨0, 2⟩] := by
    intro x hx hlt
    exact ⟨⟨0, 2⟩, List.mem_singleton_self _, hx, hlt⟩
  have h := C6_full_cover_empty_plan 2 [⟨0, 2⟩] jd0 oC6 db0 j0
    (by decide) (by intro s hs; fin_cases hs; norm_num)
    (List.chain'_singleton _)
    (by intro s hs; fin_cases hs; exact ⟨by norm_num, by norm_num⟩)
    hcov rfl rfl rfl rfl (by decide)
  exact ⟨hcov, h.1, h.2.1⟩

/-- C5 counterexample: per-segment clip paths are derived from `Date.now()`
and the loop index, not from the job id — two executions with distinct job
ids but the same clock value create the same segment path, so their
scratch-path sets are not disjoint. -/
theorem C5_segment_collision_cex :
    jd0.jobId ≠ jd1.jobId
    ∧ segmentPath 7 0 ∈ createdPaths (processVideoJob jd0 oSeg db0).trace
    ∧ segmentPath 7 0 ∈ createdPaths (processVideoJob jd1 oSeg db0).trace := by
  refine ⟨?_, ?_, ?_⟩ <;> decide

/-- C5 (amended): the downloaded-input and assembled-output scratch paths are
job-scoped and disjoint across distinct job ids, but per-segment clip and
concat-manifest paths are timestamp-scoped and may collide between concurrent
executions. -/
theorem C5_jobScoped_io_paths (a b : String) (hne : a ≠ b) :
    inputPath a ≠ inputPath b ∧ outputPath a ≠ outputPath b
    ∧ inputPath a ≠ outputPath b ∧ outputPath a ≠ inputPath b :=
  ⟨fun h => hne (inputPath_inj h), fun h => hne (outputPath_inj h),
    inputPath_ne_outputPath a b,
    fun h => inputPath_ne_outputPath b a h.symm⟩

/-- Witness for C5 (amended) at the two concrete job ids. -/
theorem C5_jobScoped_io_paths_witness :
    ("job-a" : String) ≠ "job-b"
    ∧ inputPath "job-a" ≠ inputPath "job-b"
    ∧ outputPath "job-a" ≠ outputPath "job-b"
    ∧ inputPath "job-a" ≠ outputPath "job-b" := by
  have h := C5_jobScoped_io_paths "job-a" "job-b" (by decide)
  exact ⟨by decide, h.1, h.2.1, h.2.2.1⟩

/-! ## Cleanup bookkeeping for C3 -/

theorem createdPaths_append (a b : List Ev) :
    createdPaths (a ++ b) = createdPaths a ++ createdPaths b :=
  List.filterMap_append a b createdOf

theorem deletedPaths_append (a b : List Ev) :
    deletedPaths (a ++ b) = deletedPaths a ++ deletedPaths b :=
  List.filterMap_append a b deletedOf

theorem deletedPaths_unlinks (ps : List String) :
    deletedPaths (ps.map Ev.unlinkF) = ps := by
  simp [deletedPaths, deletedOf, Function.comp_def]

theorem createdPaths_unlinks (ps : List String) :
    createdPaths (ps.map Ev.unlinkF) = [] := by
  simp [createdPaths, createdOf]

/-- On a successful extraction loop, the paths created by its events are
exactly the collected segment paths. -/
theorem extractLoop_created (o : Oracle) (src : String) :
    ∀ (segs : List Interval) (i : Nat),
      (extractLoop o src i segs).2.2 = none →
      createdPaths (extractLoop o src i segs).1
        = (extractLoop o src i segs).2.1 := by
  intro segs
  induction segs with
  | nil => intro i _; rfl
  | cons s rest ih =>
    intro i h
    by_cases hex : o.extractExit i = 0
    · simp only [extractLoop, if_pos hex] at h ⊢
      simp only [createdPaths, List.filterMap_cons, createdOf] at ih ⊢
      rw [ih (i + 1) h]
    · simp only [extractLoop, if_neg hex] at h
      cases h

/-- `processVideo` in the segment configuration with successful extraction
and concatenation. -/
theorem processVideo_seg_ok (o : Oracle) (src dst : String) (D : ℚ)
    (l : List Interval) (hdur : o.durationIn = .ok D)
    (hsil : o.silences = .ok l) (hne : l ≠ [])
    (herr : (extractLoop o src 0 (buildNonSilentSegments D l)).2.2 = none)
    (hcc : o.concatExit = 0) :
    processVideo o src dst =
      ((extractLoop o src 0 (buildNonSilentSegments D l)).1
        ++ [Ev.writeManifest (concatPath (o.now 0)),
            Ev.concatRun (concatPath (o.now 0)) dst]
        ++ (extractLoop o src 0 (buildNonSilentSegments D l)).2.1.map Ev.unlinkF
        ++ [Ev.unlinkF (concatPath (o.now 0))], none) := by
  simp only [processVideo, hdur, hsil]
  rw [if_neg (by simpa using hne), herr, if_pos hcc]

/-- `processVideo` in the segment configuration when an extraction fails. -/
theorem processVideo_seg_extractfail (o : Oracle) (src dst : String) (D : ℚ)
    (l : List Interval) (e : String) (hdur : o.durationIn = .ok D)
    (hsil : o.silences = .ok l) (hne : l ≠ [])
    (herr : (extractLoop o src 0 (buildNonSilentSegments D l)).2.2 = some e) :
    processVideo o src dst =
      ((extractLoop o src 0 (buildNonSilentSegments D l)).1, some e) := by
  simp only [processVideo, hdur, hsil]
  rw [if_neg (by simpa using hne), herr]

/-- `processVideo` in the segment configuration when the concatenation
fails. -/
theorem processVideo_seg_concatfail (o : Oracle) (src dst : String) (D : ℚ)
    (l : List Interval) (hdur : o.durationIn = .ok D)
    (hsil : o.silences = .ok l) (hne : l ≠ [])
    (herr : (extractLoop o src 0 (buildNonSilentSegments D l)).2.2 = none)
    (hcc : ¬ o.concatExit = 0) :
    processVideo o src dst =
      ((extractLoop o src 0 (buildNonSilentSegments D l)).1
        ++ [Ev.writeManifest (concatPath (o.now 0))],
        some ("FFmpeg concatenation failed with code "
          ++ toString o.concatExit)) := by
  simp only [processVideo, hdur, hsil]
  rw [if_neg (by simpa using hne), herr, if_neg hcc]

/-- `processVideo` when the stream copy fails. -/
theorem processVideo_copyfail (o : Oracle) (src dst : String) (D : ℚ)
    (hdur : o.durationIn = .ok D) (hsil : o.silences = .ok [])
    (hcopy : ¬ o.copyExit = 0) :
    processVideo o src dst =
      ([], some ("FFmpeg copy failed with code " ++ toString o.copyExit)) := by
  simp [processVideo, hdur, hsil, hcopy]

/-- List bookkeeping for the segment-branch cleanup: every path created along
the segment-branch trace is deleted there or is the output path. -/
theorem mem_seg_cleanup (r1 : List Ev) (ps : List String) (m dst p : String)
    (hcr : createdPaths r1 = ps)
    (hp : p ∈ createdPaths (r1 ++ [Ev.writeManifest m, Ev.concatRun m dst]
      ++ ps.map Ev.unlinkF ++ [Ev.unlinkF m])) :
    p ∈ deletedPaths (r1 ++ [Ev.writeManifest m, Ev.concatRun m dst]
      ++ ps.map Ev.unlinkF ++ [Ev.unlinkF m]) ∨ p = dst := by
  rw [createdPaths_append, createdPaths_append, createdPaths_append,
    createdPaths_unlinks, hcr] at hp
  rw [deletedPaths_append, deletedPaths_append, deletedPaths_append,
    deletedPaths_unlinks]
  have hc2 : createdPaths [Ev.writeManifest m, Ev.concatRun m dst]
      = [m, dst] := rfl
  have hc3 : createdPaths [Ev.unlinkF m] = [] := rfl
  have hd2 : deletedPaths [Ev.writeManifest m, Ev.concatRun m dst] = [] := rfl
  have hd3 : deletedPaths [Ev.unlinkF m] = [m] := rfl
  rw [hc2, hc3] at hp
  rw [hd2, hd3]
  simp only [List.append_nil, List.mem_append, List.mem_cons,
    List.not_mem_nil, or_false, List.mem_singleton] at hp ⊢
  tauto

/-- On a successful run, every scratch path `processVideo` creates is either
deleted by `processVideo` itself or is the output path. -/
theorem processVideo_created_sub (o : Oracle) (src dst : String)
    (h : (processVideo o src dst).2 = none) :
    ∀ p ∈ createdPaths (processVideo o src dst).1,
      p ∈ deletedPaths (processVideo o src dst).1 ∨ p = dst := by
  cases hdur : o.durationIn with
  | error e => simp [processVideo, hdur] at h
  | ok D =>
    cases hsil : o.silences with
    | error e => simp [processVideo, hdur, hsil] at h
    | ok l =>
      cases l with
      | nil =>
        by_cases hcopy : o.copyExit = 0
        · rw [processVideo_copy o src dst D hdur hsil hcopy]
          intro p hp
          have hc : createdPaths [Ev.copy src dst] = [dst] := rfl
          rw [hc] at hp
          exact Or.inr (List.mem_singleton.mp hp)
        · rw [processVideo_copyfail o src dst D hdur hsil hcopy] at h
          cases h
      | cons s rest =>
        cases herr : (extractLoop o src 0
            (buildNonSilentSegments D (s :: rest))).2.2 with
        | some e =>
          rw [processVideo_seg_extractfail o src dst D (s :: rest) e hdur hsil
            (by simp) herr] at h
          cases h
        | none =>
          by_cases hcc : o.concatExit = 0
          · rw [processVideo_seg_ok o src dst D (s :: rest) hdur hsil
              (by simp) herr hcc]
            intro p hp
            exact mem_seg_cleanup _ _ _ _ p
              (extractLoop_created o src _ 0 herr) hp
          · rw [processVideo_seg_concatfail o src dst D (s :: rest) hdur hsil
              (by simp) herr hcc] at h
            cases h

/-- The failure handler always rethrows. -/
theorem rethrown_ne_none (o : Oracle) (db : DB) (tr : List Ev)
    (msg : String) : (handleFailure o db tr msg).rethrown ≠ none := by
  intro h
  have hr := handleFailure_rethrown o db tr msg
  rw [h] at hr
  simp at hr

/-- List bookkeeping for the outer success trace: paths created across the
download, the `processVideo` events, the upload, and a post-list that creates
nothing and deletes exactly the input and output, are all deleted. -/
theorem outer_cleanup (evs post : List Ev) (src dst key p : String)
    (hsub : ∀ q ∈ createdPaths evs, q ∈ deletedPaths evs ∨ q = dst)
    (hcp : createdPaths post = []) (hdp : deletedPaths post = [src, dst])
    (hp : p ∈ createdPaths
      ([Ev.download src] ++ evs ++ [Ev.uploadEv key] ++ post)) :
    p ∈ deletedPaths
      ([Ev.download src] ++ evs ++ [Ev.uploadEv key] ++ post) := by
  rw [createdPaths_append, createdPaths_append, createdPaths_append,
    hcp] at hp
  rw [deletedPaths_append, deletedPaths_append, deletedPaths_append, hdp]
  have hc1 : createdPaths [Ev.download src] = [src] := rfl
  have hc2 : createdPaths [Ev.uploadEv key] = [] := rfl
  have hd1 : deletedPaths [Ev.download src] = [] := rfl
  have hd2 : deletedPaths [Ev.uploadEv key] = [] := rfl
  rw [hc1, hc2] at hp
  rw [hd1, hd2]
  simp only [List.append_nil, List.nil_append, List.mem_append,
    List.mem_singleton, List.mem_cons, List.not_mem_nil, or_false,
    false_or] at hp ⊢
  rcases hp with hp | hp
  · subst hp; tauto
  · rcases hsub p hp with h | h <;> tauto

/-- C3 counterexample: cleanup is not guaranteed on every exit path — when
the upload fails after a successful copy, the run rethrows and neither the
downloaded input nor the produced output is deleted (the trace contains no
deletions at all). -/
theorem C3_leak_cex :
    (processVideoJob jd0 oUploadFail db0).rethrown = some "upload failed"
    ∧ ¬ (∀ p ∈ createdPaths (processVideoJob jd0 oUploadFail db0).trace,
        p ∈ deletedPaths (processVideoJob jd0 oUploadFail db0).trace) := by
  refine ⟨?_, ?_⟩ <;> decide

/-- C3 (amended): deletion of all scratch files is guaranteed only on the
fully successful exit path: when the run rethrows nothing, every created
scratch path (input, per-segment clips, manifest, output) is deleted; failure
exits perform no input/output cleanup, as the counterexample shows. -/
theorem C3_cleanup_on_success (jd : JobData) (o : Oracle) (db : DB)
    (hok : (processVideoJob jd o db).rethrown = none) :
    ∀ p ∈ createdPaths (processVideoJob jd o db).trace,
      p ∈ deletedPaths (processVideoJob jd o db).trace := by
  obtain ⟨jb, ws, us⟩ := db
  cases hdl : o.download with
  | error e =>
    simp only [processVideoJob, runBody, hdl] at hok
    exact absurd hok (rethrown_ne_none _ _ _ _)
  | ok u =>
    cases u
    rcases hpv : processVideo o (inputPath jd.jobId) (outputPath jd.jobId)
      with ⟨evs, err⟩
    cases err with
    | some e =>
      simp only [processVideoJob, runBody, hdl, hpv] at hok
      exact absurd hok (rethrown_ne_none _ _ _ _)
    | none =>
      cases hup : o.uploadRes with
      | error e =>
        simp only [processVideoJob, runBody, hdl, hpv, hup] at hok
        exact absurd hok (rethrown_ne_none _ _ _ _)
      | ok u2 =>
        cases u2
        have hsub := processVideo_created_sub o (inputPath jd.jobId)
          (outputPath jd.jobId) (by rw [hpv])
        rw [hpv] at hsub
        simp only at hsub
        cases hcond : (emailTruthy us && ws.isSome) with
        | false =>
          simp only [processVideoJob, runBody, hdl, hpv, hup, hcond,
            Bool.false_eq_true, if_false]
          intro p hp
          exact outer_cleanup evs _ _ _ _ p hsub rfl rfl hp
        | true =>
          cases hce : o.completedEmail with
          | error e =>
            simp only [processVideoJob, runBody, hdl, hpv, hup, hcond,
              if_true, hce] at hok
            exact absurd hok (rethrown_ne_none _ _ _ _)
          | ok u3 =>
            cases u3
            simp only [processVideoJob, runBody, hdl, hpv, hup, hcond,
              if_true, hce]
            intro p hp
            exact outer_cleanup evs _ _ _ _ p hsub rfl rfl hp

/-- Witness for C3 (amended): the fully successful copy-path run deletes
everything it created. -/
theorem C3_cleanup_on_success_witness :
    (processVideoJob jd0 okOracle db0).rethrown = none
    ∧ ∀ p ∈ createdPaths (processVideoJob jd0 okOracle db0).trace,
        p ∈ deletedPaths (processVideoJob jd0 okOracle db0).trace :=
  ⟨by decide, C3_cleanup_on_success jd0 okOracle db0 (by decide)⟩

end SilenceTrimmer
